import Mathlib

/-!
Verification of the single-page to-do list manager (src/app/page.tsx).

The component state and its mutation functions (`create`, `update`, `remove`,
`toggle`), the derived filtered view, and the JSON persistence round trip are
embedded shallowly below.  `Date.now()` is modelled as an explicit `now : Nat`
parameter (milliseconds since epoch), the `confirm(...)` dialog as an explicit
`confirmed : Bool` input, and JavaScript strings as Lean `String`s (with
`toLowerCase` modelled by ASCII `Char.toLower`).
-/

namespace TodoApp

/-- The `Todo` record of the source.  The optional `description` field is
always written as a string by `create`/`update`, so it is modelled as a
(possibly empty) `String`. -/
structure Task where
  id : String
  title : String
  description : String
  completed : Bool
  createdAt : Nat
  updatedAt : Nat
deriving DecidableEq, Repr

/-- The status filter: `'todos' | 'completed'` in the source (`todos` is the
pending tab). -/
inductive Filter where
  | todos
  | completed
deriving DecidableEq, Repr

/-- The component state held in React `useState` hooks. -/
structure AppState where
  todos : List Task
  search : String
  filter : Filter
  editing : Option Task
  title : String
  description : String
  modalOpen : Bool
deriving DecidableEq, Repr

/-- Drop leading whitespace characters. -/
def dropLeadingWs : List Char → List Char
  | [] => []
  | c :: cs => if c.isWhitespace then dropLeadingWs cs else c :: cs

/-- JavaScript `String.prototype.trim`: strip leading and trailing whitespace.
Written on the character list so that it reduces definitionally. -/
def trimStr (s : String) : String :=
  ⟨((dropLeadingWs ((dropLeadingWs s.data).reverse)).reverse)⟩

/-- `create` as a list transformation: the early return on an empty trimmed
title, then the prepend of the new task built from `Date.now()`
(`id = String(now)`, `createdAt = updatedAt = now`, `completed = false`). -/
def createOp (title description : String) (now : Nat) (s : List Task) : List Task :=
  let trimmed := trimStr title
  if trimmed = "" then s
  else
    { id := toString now, title := trimmed, description := trimStr description,
      completed := false, createdAt := now, updatedAt := now } :: s

/-- `update` as a list transformation: early return on an empty trimmed title,
then `s.map (x => x.id === updated.id ? updated : x)` where `updated` copies
the `editing` snapshot with new title/description and `updatedAt = now`. -/
def updateOp (editing : Task) (title description : String) (now : Nat)
    (s : List Task) : List Task :=
  let trimmed := trimStr title
  if trimmed = "" then s
  else
    let updated : Task :=
      { editing with title := trimmed, description := trimStr description, updatedAt := now }
    s.map fun x => if x.id = updated.id then updated else x

/-- `toggle` as a list transformation: flip `completed` and stamp `updatedAt`
on every task whose id matches. -/
def toggleOp (id : String) (now : Nat) (s : List Task) : List Task :=
  s.map fun t => if t.id = id then { t with completed := !t.completed, updatedAt := now } else t

/-- The filter passed to `setTodos` by `remove`: keep the tasks whose id
differs. -/
def removeOp (id : String) (s : List Task) : List Task :=
  s.filter fun t => t.id != id

/-- State-level `create`: on success it also closes the modal and clears the
form fields; on an empty trimmed title it returns without touching anything. -/
def create (st : AppState) (now : Nat) : AppState :=
  if trimStr st.title = "" then st
  else
    { st with todos := createOp st.title st.description now st.todos,
              modalOpen := false, title := "", description := "" }

/-- State-level `update`: early return when no `editing` snapshot is set or the
trimmed title is empty; on success it rewrites the collection, clears
`editing`, closes the modal and clears the form fields. -/
def update (st : AppState) (now : Nat) : AppState :=
  match st.editing with
  | none => st
  | some editing =>
    if trimStr st.title = "" then st
    else
      { st with todos := updateOp editing st.title st.description now st.todos,
                editing := none, modalOpen := false, title := "", description := "" }

/-- State-level `remove`: the result of `confirm(...)` is the `confirmed`
input; a declined confirmation returns before any state change. -/
def remove (st : AppState) (confirmed : Bool) (id : String) : AppState :=
  if !confirmed then st
  else { st with todos := removeOp id st.todos }

/-- State-level `toggle`. -/
def toggle (st : AppState) (id : String) (now : Nat) : AppState :=
  { st with todos := toggleOp id now st.todos }

/-- ASCII `toLowerCase`, written on the character list so that facts about it
reduce definitionally. -/
def lowerStr (s : String) : String :=
  ⟨s.data.map Char.toLower⟩

/-- Does the first character list start with the second? -/
def startsWith : List Char → List Char → Bool
  | _, [] => true
  | [], _ :: _ => false
  | c :: cs, p :: ps => c == p && startsWith cs ps

/-- Does the first character list contain the second as a contiguous run? -/
def containsSub : List Char → List Char → Bool
  | [], pat => pat.isEmpty
  | c :: cs, pat => startsWith (c :: cs) pat || containsSub cs pat

/-- JavaScript `String.prototype.includes`: substring containment. -/
def strContains (s pat : String) : Bool :=
  containsSub s.data pat.data

/-- `q` of the source: the search text trimmed and lowercased. -/
def searchKey (search : String) : String :=
  lowerStr (trimStr search)

/-- The `filtered` memo of the source: status tab first, then the (trimmed,
lowercased) search text against `title + ' ' + description`, lowercased. -/
def filteredView (filter : Filter) (search : String) (todos : List Task) : List Task :=
  let q := searchKey search
  todos.filter fun t =>
    if filter = Filter.todos ∧ t.completed then false
    else if filter = Filter.completed ∧ ¬t.completed then false
    else if q = "" then true
    else strContains (lowerStr (t.title ++ " " ++ t.description)) q

/-- The view-model predicate written from the spec sentence: completed flag
matches the filter, AND the title concatenated with a space and the
description contains the search text case-insensitively, the empty search
matching everything.  (Spec-side definition, to be compared with
`filteredView` for the refinement claim.) -/
def specView (filter : Filter) (search : String) (todos : List Task) : List Task :=
  todos.filter fun t =>
    (match filter with
     | Filter.todos => !t.completed
     | Filter.completed => t.completed)
    && (search == "" || strContains (lowerStr (t.title ++ " " ++ t.description)) (lowerStr search))

/-- As `specView`, but matching against the trimmed search text, a search that
trims to empty matching everything (the amendment forced by the source's
`search.trim()`). -/
def specViewTrimmed (filter : Filter) (search : String) (todos : List Task) : List Task :=
  todos.filter fun t =>
    (match filter with
     | Filter.todos => !t.completed
     | Filter.completed => t.completed)
    && (trimStr search == ""
        || strContains (lowerStr (t.title ++ " " ++ t.description)) (lowerStr (trimStr search)))

/-- JSON values, as produced by `JSON.parse` / consumed by `JSON.stringify`.
Timestamps are the only numbers stored, so numbers are modelled as `Nat`. -/
inductive JValue where
  | str (s : String)
  | num (n : Nat)
  | bool (b : Bool)
  | arr (elems : List JValue)
  | obj (fields : List (String × JValue))

/-- Field access on a parsed JSON object, by name. -/
def getField : List (String × JValue) → String → Option JValue
  | [], _ => none
  | (k, v) :: rest, key => if k = key then some v else getField rest key

/-- `JSON.stringify` of one `Todo` record, at the JSON-value level: the record
with its six fields in declaration order. -/
def encodeTask (t : Task) : JValue :=
  JValue.obj [("id", JValue.str t.id), ("title", JValue.str t.title),
              ("description", JValue.str t.description), ("completed", JValue.bool t.completed),
              ("createdAt", JValue.num t.createdAt), ("updatedAt", JValue.num t.updatedAt)]

/-- Reading one `Todo` record back from a JSON value: field lookup by name,
failing on anything that is not a well-formed record. -/
def decodeTask (j : JValue) : Option Task :=
  match j with
  | JValue.obj fields =>
    match getField fields "id", getField fields "title", getField fields "description",
          getField fields "completed", getField fields "createdAt",
          getField fields "updatedAt" with
    | some (JValue.str i), some (JValue.str ti), some (JValue.str d),
      some (JValue.bool c), some (JValue.num ca), some (JValue.num ua) =>
        some { id := i, title := ti, description := d, completed := c,
               createdAt := ca, updatedAt := ua }
    | _, _, _, _, _, _ => none
  | _ => none

/-- Reading a list of records, failing if any element fails. -/
def decodeTaskList : List JValue → Option (List Task)
  | [] => some []
  | j :: rest =>
    match decodeTask j, decodeTaskList rest with
    | some t, some ts => some (t :: ts)
    | _, _ => none

/-- The persistence `useEffect`: `JSON.stringify(todos)` at the JSON-value
level. -/
def save (todos : List Task) : JValue :=
  JValue.arr (todos.map encodeTask)

/-- The startup `useEffect`: an absent slot or a value that is not a
well-formed task array yields the empty collection; otherwise the stored
records. -/
def load (raw : Option JValue) : List Task :=
  match raw with
  | none => []
  | some (JValue.arr elems) => (decodeTaskList elems).getD []
  | some _ => []

/-- Collection states reachable from the empty collection by the four
mutations.  `update`'s `editing` snapshot is a task of the current collection
(set by `openEdit`); `remove` steps only when confirmation was granted
(a declined confirmation changes nothing). -/
inductive Reach : List Task → Prop where
  | empty : Reach []
  | create (title description : String) (now : Nat) (s : List Task) :
      Reach s → Reach (createOp title description now s)
  | update (editing : Task) (title description : String) (now : Nat) (s : List Task) :
      editing ∈ s → Reach s → Reach (updateOp editing title description now s)
  | toggle (id : String) (now : Nat) (s : List Task) :
      Reach s → Reach (toggleOp id now s)
  | remove (id : String) (s : List Task) :
      Reach s → Reach (removeOp id s)

/-- As `Reach`, but every creation happens at a timestamp whose string form is
not already an id in the collection (in particular, no two creations in the
same millisecond). -/
inductive ReachFresh : List Task → Prop where
  | empty : ReachFresh []
  | create (title description : String) (now : Nat) (s : List Task) :
      toString now ∉ s.map Task.id →
      ReachFresh s → ReachFresh (createOp title description now s)
  | update (editing : Task) (title description : String) (now : Nat) (s : List Task) :
      editing ∈ s → ReachFresh s → ReachFresh (updateOp editing title description now s)
  | toggle (id : String) (now : Nat) (s : List Task) :
      ReachFresh s → ReachFresh (toggleOp id now s)
  | remove (id : String) (s : List Task) :
      ReachFresh s → ReachFresh (removeOp id s)

end TodoApp

namespace TodoApp

/-- Two maps agree when the functions agree on every element. -/
theorem map_congr_mem {α β : Type} {f g : α → β} {l : List α}
    (h : ∀ x ∈ l, f x = g x) : l.map f = l.map g := by
  induction l with
  | nil => rfl
  | cons a l ih =>
    rw [List.map_cons, List.map_cons, h a (List.mem_cons_self a l),
        ih fun x hx => h x (List.mem_cons_of_mem a hx)]

/-- Mapping a function that fixes every element of a list is the identity. -/
theorem map_eq_self_of_fixed {α : Type} {f : α → α} {l : List α}
    (h : ∀ x ∈ l, f x = x) : l.map f = l := by
  induction l with
  | nil => rfl
  | cons a l ih =>
    rw [List.map_cons, h a (List.mem_cons_self a l),
        ih fun x hx => h x (List.mem_cons_of_mem a hx)]

/-- Every element of a replace-if map is either the replacement or an original
element. -/
theorem mem_map_ite {u : Task} {p : Task → Prop} [DecidablePred p] {s : List Task} {t : Task}
    (ht : t ∈ s.map fun x => if p x then u else x) : t = u ∨ t ∈ s := by
  rcases List.mem_map.mp ht with ⟨x, hx, hfx⟩
  by_cases hc : p x
  · rw [if_pos hc] at hfx
    exact Or.inl hfx.symm
  · rw [if_neg hc] at hfx
    exact Or.inr (hfx ▸ hx)

/-- Replacing the tasks matching `u.id` by `u` does not change the list of
ids. -/
theorem map_id_ite (u : Task) (s : List Task) :
    (s.map fun x => if x.id = u.id then u else x).map Task.id = s.map Task.id := by
  induction s with
  | nil => rfl
  | cons a s ih =>
    by_cases hc : a.id = u.id
    · simp [hc, ih]
    · simp [hc, ih]

/-- `updateOp` does not change the list of ids. -/
theorem map_id_updateOp (editing : Task) (title description : String) (now : Nat)
    (s : List Task) :
    (updateOp editing title description now s).map Task.id = s.map Task.id := by
  unfold updateOp
  by_cases h : trimStr title = ""
  · simp [h]
  · simp only [h, if_false, ite_false, if_neg]
    exact map_id_ite
      { editing with title := trimStr title, description := trimStr description,
                     updatedAt := now } s

/-- `toggleOp` does not change the list of ids. -/
theorem map_id_toggleOp (id : String) (now : Nat) (s : List Task) :
    (toggleOp id now s).map Task.id = s.map Task.id := by
  unfold toggleOp
  induction s with
  | nil => rfl
  | cons a s ih =>
    by_cases hc : a.id = id
    · simp [hc, ih]
    · simp [hc, ih]

/-- Claim C7: submitting `create` or `update` while the title trims to empty
leaves the component state — collection, modal flag and both form fields —
entirely unchanged. -/
theorem empty_title_noop (st : AppState) (now : Nat) (h : trimStr st.title = "") :
    create st now = st ∧ update st now = st := by
  refine ⟨by simp [create, h], ?_⟩
  cases he : st.editing with
  | none => simp [update, he]
  | some e => simp [update, he, h]

/-- Claim C7, witness: a concrete state with a whitespace-only title is fixed
by both submissions. -/
theorem empty_title_noop_witness :
    create ⟨[], "", Filter.todos, none, " ", "d", true⟩ 3 =
        ⟨[], "", Filter.todos, none, " ", "d", true⟩ ∧
    update ⟨[], "", Filter.todos, none, " ", "d", true⟩ 3 =
        ⟨[], "", Filter.todos, none, " ", "d", true⟩ :=
  empty_title_noop ⟨[], "", Filter.todos, none, " ", "d", true⟩ 3 (by decide)

/-- Claim C9: when the id matches no task of the collection, `update` (with a
non-empty trimmed title) and `toggle` leave the collection unchanged. -/
theorem missing_id_noop (editing : Task) (title description : String) (now : Nat)
    (s : List Task) (id : String)
    (htitle : trimStr title ≠ "")
    (hupd : editing.id ∉ s.map Task.id) (htog : id ∉ s.map Task.id) :
    updateOp editing title description now s = s ∧ toggleOp id now s = s := by
  constructor
  · unfold updateOp
    rw [if_neg htitle]
    apply map_eq_self_of_fixed
    intro x hx
    have hne : ¬(x.id = editing.id) := by
      intro hEq
      exact hupd (hEq ▸ List.mem_map_of_mem Task.id hx)
    exact if_neg hne
  · unfold toggleOp
    apply map_eq_self_of_fixed
    intro x hx
    have hne : ¬(x.id = id) := by
      intro hEq
      exact htog (hEq ▸ List.mem_map_of_mem Task.id hx)
    exact if_neg hne

/-- Claim C9, witness: a concrete collection without the id is fixed by both
operations. -/
theorem missing_id_noop_witness :
    updateOp ⟨"9", "t", "", false, 0, 0⟩ "x" "" 1 [⟨"1", "a", "", false, 0, 0⟩] =
        [⟨"1", "a", "", false, 0, 0⟩] ∧
    toggleOp "9" 1 [⟨"1", "a", "", false, 0, 0⟩] = [⟨"1", "a", "", false, 0, 0⟩] :=
  missing_id_noop ⟨"9", "t", "", false, 0, 0⟩ "x" "" 1 [⟨"1", "a", "", false, 0, 0⟩] "9"
    (by decide) (by decide) (by decide)

/-- Claim C10: every task written by `create` or `update` (as opposed to the
tasks carried over untouched) stores the description with surrounding
whitespace trimmed. -/
theorem description_trimmed (editing : Task) (title description : String) (now : Nat)
    (s : List Task) (h : trimStr title ≠ "") :
    (∀ t ∈ createOp title description now s, t ∈ s ∨ t.description = trimStr description) ∧
    (∀ t ∈ updateOp editing title description now s, t ∈ s ∨ t.description = trimStr description) := by
  constructor
  · intro t ht
    unfold createOp at ht
    rw [if_neg h] at ht
    rcases List.mem_cons.mp ht with hEq | hMem
    · exact Or.inr (by rw [hEq])
    · exact Or.inl hMem
  · intro t ht
    unfold updateOp at ht
    rw [if_neg h] at ht
    rcases mem_map_ite (p := fun x => x.id = _) ht with hEq | hMem
    · exact Or.inr (by rw [hEq])
    · exact Or.inl hMem

/-- Claim C10, witness: concrete creations and updates store the trimmed
description. -/
theorem description_trimmed_witness :
    (∀ t ∈ createOp "a" " d " 1 [⟨"1", "a", "", false, 0, 0⟩],
      t ∈ [(⟨"1", "a", "", false, 0, 0⟩ : Task)] ∨ t.description = trimStr " d ") ∧
    (∀ t ∈ updateOp ⟨"1", "a", "", false, 0, 0⟩ "a" " d " 1 [⟨"1", "a", "", false, 0, 0⟩],
      t ∈ [(⟨"1", "a", "", false, 0, 0⟩ : Task)] ∨ t.description = trimStr " d ") :=
  description_trimmed ⟨"1", "a", "", false, 0, 0⟩ "a" " d " 1 [⟨"1", "a", "", false, 0, 0⟩]
    (by decide)

/-- Decoding inverts encoding on a single record. -/
theorem decode_encode (t : Task) : decodeTask (encodeTask t) = some t := rfl

/-- Decoding inverts encoding on a list of records. -/
theorem decodeTaskList_map (ts : List Task) :
    decodeTaskList (ts.map encodeTask) = some ts := by
  induction ts with
  | nil => rfl
  | cons t ts ih => simp [decodeTaskList, decode_encode, ih]

/-- Claim C8: persisting a collection with `save` and reading it back with
`load` (a simulated restart) restores the collection record by record. -/
theorem load_save_roundtrip (todos : List Task) : load (some (save todos)) = todos := by
  simp [load, save, decodeTaskList_map]


/-- Claim C1, counterexample: with a non-empty trimmed title the new task is
prepended, but its id `String(Date.now())` equals the id of a task created in
the same millisecond, so the id is not fresh. -/
theorem create_id_collision :
    trimStr "b" ≠ "" ∧
    (createOp "b" "" 0 [⟨"0", "a", "", false, 0, 0⟩]).head?.map Task.id = some "0" ∧
    "0" ∈ ([⟨"0", "a", "", false, 0, 0⟩] : List Task).map Task.id := by decide

/-- Claim C1, amended: when the trimmed title is non-empty and no existing
task carries the id derived from the creation timestamp, `create` prepends a
task with that fresh id, trimmed fields, `completed = false` and equal
`createdAt`/`updatedAt`, increasing the size by one. -/
theorem create_spec_amended (title description : String) (now : Nat) (s : List Task)
    (h : trimStr title ≠ "") (hfresh : toString now ∉ s.map Task.id) :
    createOp title description now s =
      { id := toString now, title := trimStr title, description := trimStr description,
        completed := false, createdAt := now, updatedAt := now } :: s ∧
    (createOp title description now s).length = s.length + 1 ∧
    ∀ t ∈ s, t.id ≠ toString now := by
  have h1 : createOp title description now s =
      { id := toString now, title := trimStr title, description := trimStr description,
        completed := false, createdAt := now, updatedAt := now } :: s := by
    unfold createOp
    rw [if_neg h]
  refine ⟨h1, by rw [h1]; rfl, ?_⟩
  intro t ht hEq
  exact hfresh (hEq ▸ List.mem_map_of_mem Task.id ht)

/-- Claim C1, witness: a concrete creation over a singleton collection. -/
theorem create_spec_amended_witness :
    createOp "a" " d " 1 [⟨"0", "b", "", false, 0, 0⟩] =
      { id := toString 1, title := trimStr "a", description := trimStr " d ",
        completed := false, createdAt := 1, updatedAt := 1 } ::
        [⟨"0", "b", "", false, 0, 0⟩] ∧
    (createOp "a" " d " 1 [⟨"0", "b", "", false, 0, 0⟩]).length =
      ([⟨"0", "b", "", false, 0, 0⟩] : List Task).length + 1 ∧
    ∀ t ∈ ([⟨"0", "b", "", false, 0, 0⟩] : List Task), t.id ≠ toString 1 :=
  create_spec_amended "a" " d " 1 [⟨"0", "b", "", false, 0, 0⟩] (by decide) (by decide)

/-- Claim C2, counterexample: two creations in the same millisecond are a
reachable sequence that produces two tasks with the same id, so id uniqueness
does not hold in every reachable state. -/
theorem reach_id_duplicate : ¬ ∀ s : List Task, Reach s → (s.map Task.id).Nodup := by
  intro hAll
  have h2 : Reach (createOp "b" "" 0 (createOp "a" "" 0 [])) :=
    Reach.create "b" "" 0 _ (Reach.create "a" "" 0 _ Reach.empty)
  exact absurd (hAll _ h2) (by decide)

/-- Claim C2, amended: in every state reachable when each creation happens at
a timestamp whose string form is not already an id of the collection (in
particular when no two creations share a millisecond), the ids are pairwise
distinct. -/
theorem reach_fresh_nodup_ids (s : List Task) (h : ReachFresh s) :
    (s.map Task.id).Nodup := by
  induction h with
  | empty => simp
  | create title description now s hfresh hr ih =>
    by_cases ht : trimStr title = ""
    · unfold createOp
      simpa [ht] using ih
    · unfold createOp
      rw [if_neg ht]
      exact List.nodup_cons.mpr ⟨hfresh, ih⟩
  | update editing title description now s hmem hr ih =>
    rw [map_id_updateOp]
    exact ih
  | toggle id now s hr ih =>
    rw [map_id_toggleOp]
    exact ih
  | remove id s hr ih =>
    exact ih.sublist (List.Sublist.map Task.id (List.filter_sublist s))

/-- Claim C2, witness: a concrete fresh-timestamp creation yields distinct
ids. -/
theorem reach_fresh_nodup_ids_witness :
    ((createOp "b" "" 1 (createOp "a" "" 0 [])).map Task.id).Nodup :=
  reach_fresh_nodup_ids _
    (ReachFresh.create "b" "" 1 _ (by decide)
      (ReachFresh.create "a" "" 0 _ (by decide) ReachFresh.empty))


/-- Claim C3, counterexample: in a collection holding two tasks with the same
id, `update` (non-empty trimmed title, id present) rewrites both entries, so a
task other than the edited one does not stay unchanged — its title,
`completed` and `createdAt` are all clobbered by the edited snapshot. -/
theorem update_duplicate_id_clobbers :
    (⟨"1", "a", "", false, 0, 0⟩ : Task) ∈
        ([⟨"1", "a", "", false, 0, 0⟩, ⟨"1", "b", "", true, 1, 1⟩] : List Task) ∧
    trimStr "c" ≠ "" ∧
    updateOp ⟨"1", "a", "", false, 0, 0⟩ "c" "" 2
        [⟨"1", "a", "", false, 0, 0⟩, ⟨"1", "b", "", true, 1, 1⟩] =
      [⟨"1", "c", "", false, 0, 2⟩, ⟨"1", "c", "", false, 0, 2⟩] ∧
    (⟨"1", "c", "", false, 0, 2⟩ : Task) ≠ ⟨"1", "b", "", true, 1, 1⟩ := by decide

/-- Claim C3, amended: when the collection contains exactly one task with the
edited id, the trimmed title is non-empty and the update does not happen
earlier than that task's `updatedAt`, `update` replaces only that task —
new title and description (trimmed), `updatedAt` bumped to a value at least
the previous one — preserving `id`, `createdAt` and `completed` and leaving
every other task unchanged. -/
theorem update_frame_amended (l1 l2 : List Task) (e : Task) (title description : String)
    (now : Nat) (h : trimStr title ≠ "")
    (h1 : e.id ∉ l1.map Task.id) (h2 : e.id ∉ l2.map Task.id)
    (hmono : e.updatedAt ≤ now) :
    updateOp e title description now (l1 ++ e :: l2) =
      l1 ++ { e with title := trimStr title, description := trimStr description,
                     updatedAt := now } :: l2 ∧
    ({ e with title := trimStr title, description := trimStr description,
              updatedAt := now } : Task).id = e.id ∧
    ({ e with title := trimStr title, description := trimStr description,
              updatedAt := now } : Task).createdAt = e.createdAt ∧
    ({ e with title := trimStr title, description := trimStr description,
              updatedAt := now } : Task).completed = e.completed ∧
    e.updatedAt ≤ ({ e with title := trimStr title, description := trimStr description,
                            updatedAt := now } : Task).updatedAt := by
  refine ⟨?_, rfl, rfl, rfl, hmono⟩
  unfold updateOp
  rw [if_neg h, List.map_append, List.map_cons, if_pos rfl]
  have hfix : ∀ l : List Task, e.id ∉ l.map Task.id →
      (l.map fun x =>
        if x.id = ({ e with title := trimStr title, description := trimStr description,
                            updatedAt := now } : Task).id
        then { e with title := trimStr title, description := trimStr description,
                      updatedAt := now }
        else x) = l := by
    intro l hl
    apply map_eq_self_of_fixed
    intro x hx
    have hne : ¬(x.id = e.id) := by
      intro hEq
      exact hl (hEq ▸ List.mem_map_of_mem Task.id hx)
    exact if_neg hne
  rw [hfix l1 h1, hfix l2 h2]

/-- Claim C3, witness: a concrete update of the middle task of three. -/
theorem update_frame_amended_witness :
    updateOp ⟨"2", "b", "", true, 1, 1⟩ " c " "dd" 5
        [⟨"1", "a", "", false, 0, 0⟩, ⟨"2", "b", "", true, 1, 1⟩, ⟨"3", "e", "", false, 2, 2⟩] =
      [⟨"1", "a", "", false, 0, 0⟩, ⟨"2", "c", "dd", true, 1, 5⟩, ⟨"3", "e", "", false, 2, 2⟩] ∧
    ("2" : String) = "2" ∧ (1 : Nat) = 1 ∧ (true = true) ∧ (1 : Nat) ≤ 5 :=
  update_frame_amended [⟨"1", "a", "", false, 0, 0⟩] [⟨"3", "e", "", false, 2, 2⟩]
    ⟨"2", "b", "", true, 1, 1⟩ " c " "dd" 5 (by decide) (by decide) (by decide) (by decide)

/-- Claim C4, counterexample: a toggle in the same millisecond as the task's
last update matches the task but leaves `updatedAt` unchanged, so a single
application does not always change `updatedAt`. -/
theorem toggle_same_millis_updatedAt :
    ("1" : String) ∈ ([⟨"1", "x", "", false, 5, 5⟩] : List Task).map Task.id ∧
    (toggleOp "1" 5 [⟨"1", "x", "", false, 5, 5⟩]).map Task.updatedAt =
      ([⟨"1", "x", "", false, 5, 5⟩] : List Task).map Task.updatedAt := by decide

/-- Claim C4, amended: applying `toggle` twice restores every task's
`completed` flag, and a single application sets the matching tasks'
`updatedAt` to the toggle's timestamp (a change exactly when that timestamp
differs from the previous value). -/
theorem toggle_involutive_amended (s : List Task) (id : String) (n1 n2 : Nat) :
    (toggleOp id n2 (toggleOp id n1 s)).map Task.completed = s.map Task.completed ∧
    ∀ t ∈ toggleOp id n1 s, t.id = id → t.updatedAt = n1 := by
  constructor
  · unfold toggleOp
    rw [List.map_map, List.map_map]
    apply map_congr_mem
    intro x hx
    by_cases hc : x.id = id
    · simp [Function.comp, hc, Bool.not_not]
    · simp [Function.comp, hc]
  · intro t ht hid
    unfold toggleOp at ht
    rcases List.mem_map.mp ht with ⟨x, hx, hfx⟩
    by_cases hc : x.id = id
    · rw [if_pos hc] at hfx
      rw [hfx.symm]
    · rw [if_neg hc] at hfx
      exact absurd (hfx ▸ hid) hc

/-- Claim C4, witness: a concrete double toggle restores the flag, and the
single application stamps the toggle time. -/
theorem toggle_involutive_amended_witness :
    (toggleOp "1" 7 (toggleOp "1" 3 [⟨"1", "x", "", false, 0, 0⟩])).map Task.completed =
      ([⟨"1", "x", "", false, 0, 0⟩] : List Task).map Task.completed ∧
    ∀ t ∈ toggleOp "1" 3 [⟨"1", "x", "", false, 0, 0⟩], t.id = "1" → t.updatedAt = 3 :=
  toggle_involutive_amended [⟨"1", "x", "", false, 0, 0⟩] "1" 3 7

/-- Claim C6, counterexample: with two tasks sharing an id, a confirmed
deletion removes both entries, not exactly one. -/
theorem remove_duplicate_id_removes_two :
    (remove ⟨[⟨"7", "x", "", false, 0, 0⟩, ⟨"7", "y", "", false, 1, 1⟩],
             "", Filter.todos, none, "", "", false⟩ true "7").todos = [] ∧
    ([⟨"7", "x", "", false, 0, 0⟩, ⟨"7", "y", "", false, 1, 1⟩] : List Task).length = 2 := by
  decide

/-- Claim C6, amended: when the collection contains exactly one task with the
id, a confirmed removal deletes exactly that entry and keeps every other task;
a declined confirmation leaves the state unchanged. -/
theorem remove_spec_amended (st : AppState) (l1 l2 : List Task) (e : Task) (id : String)
    (hst : st.todos = l1 ++ e :: l2) (hid : e.id = id)
    (h1 : ∀ x ∈ l1, x.id ≠ id) (h2 : ∀ x ∈ l2, x.id ≠ id) :
    (remove st true id).todos = l1 ++ l2 ∧
    ∀ st' : AppState, remove st' false id = st' := by
  constructor
  · show (removeOp id st.todos) = l1 ++ l2
    rw [hst]
    unfold removeOp
    rw [List.filter_append, List.filter_cons]
    have hkeep : ∀ l : List Task, (∀ x ∈ l, x.id ≠ id) →
        (l.filter fun t => t.id != id) = l := by
      intro l hl
      apply List.filter_eq_self.mpr
      intro x hx
      exact bne_iff_ne.mpr (hl x hx)
    rw [hkeep l1 h1, hkeep l2 h2]
    simp [hid]
  · intro st'
    rfl

/-- Claim C6, witness: a concrete confirmed removal deletes the single
matching task, and a declined one is the identity. -/
theorem remove_spec_amended_witness :
    (remove ⟨[⟨"1", "a", "", false, 0, 0⟩] ++ ⟨"2", "b", "", true, 1, 1⟩ ::
               [⟨"3", "e", "", false, 2, 2⟩], "", Filter.todos, none, "", "", false⟩
        true "2").todos =
      [⟨"1", "a", "", false, 0, 0⟩] ++ [⟨"3", "e", "", false, 2, 2⟩] ∧
    ∀ st' : AppState, remove st' false "2" = st' :=
  remove_spec_amended
    ⟨[⟨"1", "a", "", false, 0, 0⟩] ++ ⟨"2", "b", "", true, 1, 1⟩ ::
        [⟨"3", "e", "", false, 2, 2⟩], "", Filter.todos, none, "", "", false⟩
    [⟨"1", "a", "", false, 0, 0⟩] [⟨"3", "e", "", false, 2, 2⟩]
    ⟨"2", "b", "", true, 1, 1⟩ "2" rfl rfl (by decide) (by decide)


/-- Lowercasing yields the empty string only for the empty string. -/
theorem lowerStr_eq_empty {s : String} : lowerStr s = "" ↔ s = "" := by
  constructor
  · intro h
    have hd : s.data.map Char.toLower = [] := congrArg String.data h
    cases s with
    | mk data =>
      simp only [List.map_eq_nil_iff] at hd
      rw [hd]
  · intro h
    rw [h]
    rfl

/-- Claim C5, counterexample: the source trims the search text before
matching; for the search text " b" the code matches the task titled "ab"
(its trimmed key "b" occurs) while the spec predicate — the untrimmed text
" b" as substring — rejects it, so the two views differ. -/
theorem filtered_untrimmed_search_mismatch :
    filteredView Filter.todos " b" [⟨"1", "ab", "", false, 0, 0⟩] ≠
      specView Filter.todos " b" [⟨"1", "ab", "", false, 0, 0⟩] := by decide

/-- Claim C5, amended: the view equals, for every collection, status filter
and search text, the spec predicate applied to the trimmed search text —
completed flag matching the filter AND title-space-description containing the
trimmed search text case-insensitively, a search trimming to empty matching
everything — in collection order. -/
theorem filtered_eq_spec_trimmed (filter : Filter) (search : String) (todos : List Task) :
    filteredView filter search todos = specViewTrimmed filter search todos := by
  unfold filteredView specViewTrimmed
  apply List.filter_congr
  intro t ht
  by_cases hq : trimStr search = ""
  · have hkey : searchKey search = "" := by
      rw [searchKey, lowerStr_eq_empty.mpr hq]
    cases filter <;> cases hc : t.completed <;>
      simp [hkey, hq, hc]
  · have hkey : ¬(lowerStr (trimStr search) = "") := fun hEq =>
      hq (lowerStr_eq_empty.mp hEq)
    cases filter <;> cases hc : t.completed <;>
      simp [searchKey, hkey, hq, hc, beq_iff_eq]

end TodoApp
